import Mathlib

/-
Verification of the page-table / frame-management core of PA2 (src/pa2.c).

The file src/pa2.c contains two variants separated by a document marker; the
first variant (lines 1-255) is the complete one and is the one every claim
points at, so it is the one embedded here.  The embedding is shallow:

  - struct pte            -> Pte        (field private is spelled priv, since
                                         private is a Lean keyword)
  - struct pte_directory  -> PteDir     (a list of NR_PTES_PER_PAGE entries)
  - struct pagetable      -> Pagetable  (a list of NR_OUTER optional
                                         directories; a C NULL pointer is
                                         Option.none)
  - the globals processes / current / ptbr / mapcounts -> structure MMU.
    ptbr always aliases the page table of the current process, so it is
    represented by the derived accessor ptbrTable rather than stored.
  - unsigned int arithmetic on mapcounts is Nat arithmetic mod 2^32
    (u32inc / u32dec).
  - malloc of a directory or a process is modelled as zero-initialised
    memory (all-false PTEs), which is what the code implicitly assumes.
  - a C execution that leaves the defined domain (dereferencing an absent
    directory, or the unbounded frame scan running past the end of
    mapcounts) is modelled as Option.none.
-/

set_option maxRecDepth 100000

namespace PA2

/-- Modelled from the spec: the geometry constants come from vm.h, which is
not under src/.  The spec fixes only that the per-directory entry count and
the frame count are fixed constants; we use 16 entries per directory and 128
frames.  No claim below depends on the particular values. -/
def NR_PTES_PER_PAGE : Nat := 16

/-- Modelled from the spec: the fixed number of physical page frames. -/
def NR_PAGEFRAMES : Nat := 128

/-- Number of outer (first-level) slots of a page table.  This is the bound
the switch_process loops use (NR_PAGEFRAMES / NR_PTES_PER_PAGE), and per the
spec the outer table has exactly the slots those loops walk. -/
def NR_OUTER : Nat := NR_PAGEFRAMES / NR_PTES_PER_PAGE

/-- Modelled from the spec: struct pte of vm.h (vm.h is not under src/).
The spec data model gives its four fields: valid, writable, private
(spelled priv here) and the backing frame index pfn. -/
structure Pte where
  valid : Bool
  writable : Bool
  priv : Bool
  pfn : Nat
deriving Repr, DecidableEq

/-- A zero-initialised PTE (what a freshly malloc-ed directory holds under
the zero-initialisation modelling of malloc). -/
def Pte.initial : Pte := { valid := false, writable := false, priv := false, pfn := 0 }

/-- struct pte_directory: a fixed array of NR_PTES_PER_PAGE entries. -/
abbrev PteDir := List Pte

/-- struct pagetable: a fixed array of NR_OUTER optional directory
references (none is a NULL outer_ptes slot). -/
abbrev Pagetable := List (Option PteDir)

/-- A freshly allocated (zeroed) directory. -/
def emptyDir : PteDir := List.replicate NR_PTES_PER_PAGE Pte.initial

/-- A page table with every outer slot NULL. -/
def emptyTable : Pagetable := List.replicate NR_OUTER none

/-- struct process: a pid and an owned page table (the ready-queue link is
represented by membership in MMU.processes). -/
structure Process where
  pid : Nat
  pagetable : Pagetable
deriving Repr, DecidableEq

/-- Placeholder used as the default of list lookups; never reached under the
in-range hypotheses of the theorems below. -/
def defaultProcess : Process := { pid := 0, pagetable := [] }

/-- Modelled from the spec: the global state the driver owns (the extern
declarations of pa2.c).  processes is the ready queue in insertion order;
current is none when the primordial process (which is never in the queue) is
running, and some i when processes[i] is running; mapcounts is the global
frame reference-count table.  ptbr is not stored: it always points at the
page table of the current process (see ptbrTable / setPtbrTable). -/
structure MMU where
  processes : List Process
  initProc : Process
  current : Option Nat
  mapcounts : List Nat
deriving Repr, DecidableEq

/-- The page table ptbr points at: the current process's table. -/
def ptbrTable (s : MMU) : Pagetable :=
  match s.current with
  | none => s.initProc.pagetable
  | some i => (s.processes.getD i defaultProcess).pagetable

/-- Write back a new value for the table ptbr points at (a store through
ptbr in the C code). -/
def setPtbrTable (s : MMU) (t : Pagetable) : MMU :=
  match s.current with
  | none => { s with initProc := { s.initProc with pagetable := t } }
  | some i =>
      { s with processes :=
          s.processes.set i { s.processes.getD i defaultProcess with pagetable := t } }

/-- mapcounts[f] (0 beyond the array, which theorems exclude by hypotheses). -/
def mcGet (mc : List Nat) (f : Nat) : Nat := mc.getD f 0

def U32MOD : Nat := 4294967296

/-- unsigned int increment (mapcounts[i]++). -/
def u32inc (c : Nat) : Nat := (c + 1) % U32MOD

/-- unsigned int decrement (mapcounts[i]--). -/
def u32dec (c : Nat) : Nat := (c + 4294967295) % U32MOD

/-- ptbr->outer_ptes[pd] (none both for a NULL slot and out of range). -/
def getDir (t : Pagetable) (pd : Nat) : Option PteDir := t.getD pd none

/-- Read the PTE at (pd, pt); none when the directory is absent. -/
def getPte (t : Pagetable) (pd pt : Nat) : Option Pte :=
  (getDir t pd).map fun d => d.getD pt Pte.initial

/-- Update the PTE at (pd, pt) in place; no-op when the directory is
absent (the operations only use it with the directory present). -/
def modifyPte (t : Pagetable) (pd pt : Nat) (f : Pte → Pte) : Pagetable :=
  match getDir t pd with
  | none => t
  | some d => t.set pd (some (d.set pt (f (d.getD pt Pte.initial))))

/-- The lazy directory allocation of alloc_page: if outer_ptes[pd] is NULL,
install a fresh zeroed directory. -/
def ensureDir (t : Pagetable) (pd : Nat) : Pagetable :=
  match getDir t pd with
  | some _ => t
  | none => t.set pd (some emptyDir)

/-- The free-frame scan for (int i = 0;; i++) if (!mapcounts[i]) ... of
alloc_page and handle_page_fault, restricted to the array: the index of the
first zero count, none when there is no zero within the array (in which case
the C loop runs past the end of mapcounts). -/
def findFreeFrame : List Nat → Option Nat
  | [] => none
  | c :: rest => if c = 0 then some 0 else (findFreeFrame rest).map fun k => k + 1

/-- alloc_page (src/pa2.c lines 63-92).  Marks the entry valid, sets
writable from rw (rw == 2 || rw == 3), then scans mapcounts for the first
zero count, assigns it as pfn and increments it.  none models the case in
which no frame is free: the scan leaves the array (undefined behaviour) and
the return -1 on line 91 is unreachable. -/
def alloc_page (s : MMU) (vpn rw : Nat) : Option (MMU × Nat) :=
  let pd := vpn / NR_PTES_PER_PAGE
  let pt := vpn % NR_PTES_PER_PAGE
  let t0 := ensureDir (ptbrTable s) pd
  let t1 := modifyPte t0 pd pt fun e =>
    { e with valid := true, writable := rw == 2 || rw == 3 }
  match findFreeFrame s.mapcounts with
  | none => none
  | some i =>
      some (setPtbrTable
              { s with mapcounts := s.mapcounts.set i (u32inc (mcGet s.mapcounts i)) }
              (modifyPte t1 pd pt fun e => { e with pfn := i }),
            i)

/-- free_page (src/pa2.c lines 104-115).  Unconditionally clears valid,
writable and private of the entry and decrements mapcounts[pfn] (pfn itself
is left in the entry).  none models an absent directory, which the C code
would dereference. -/
def free_page (s : MMU) (vpn : Nat) : Option MMU :=
  let pd := vpn / NR_PTES_PER_PAGE
  let pt := vpn % NR_PTES_PER_PAGE
  match getDir (ptbrTable s) pd with
  | none => none
  | some d =>
      let e := d.getD pt Pte.initial
      some (setPtbrTable
              { s with mapcounts := s.mapcounts.set e.pfn (u32dec (mcGet s.mapcounts e.pfn)) }
              (modifyPte (ptbrTable s) pd pt fun x =>
                { x with valid := false, writable := false, priv := false }))

/-- The body of the COW branch of handle_page_fault (lines 141-158): set
writable, and when mapcounts[pfn] > 1 decrement it and move the entry to
the first free frame.  none models the free-frame scan leaving the array. -/
def hpfResolve (s : MMU) (vpn : Nat) (e : Pte) : Option (MMU × Bool) :=
  let pd := vpn / NR_PTES_PER_PAGE
  let pt := vpn % NR_PTES_PER_PAGE
  let t1 := modifyPte (ptbrTable s) pd pt fun x => { x with writable := true }
  if 1 < mcGet s.mapcounts e.pfn then
    let mc1 := s.mapcounts.set e.pfn (u32dec (mcGet s.mapcounts e.pfn))
    match findFreeFrame mc1 with
    | none => none
    | some i =>
        some (setPtbrTable
                { s with mapcounts := mc1.set i (u32inc (mcGet mc1 i)) }
                (modifyPte t1 pd pt fun x => { x with pfn := i }),
              true)
  else some (setPtbrTable s t1, true)

/-- handle_page_fault (src/pa2.c lines 135-163).  The condition on line 140
tests !writable, rw being a write (rw == 2 || rw == 3) and private == 1; it
never tests valid.  none models the NULL dereference of an absent outer
directory on line 140. -/
def handle_page_fault (s : MMU) (vpn rw : Nat) : Option (MMU × Bool) :=
  let pd := vpn / NR_PTES_PER_PAGE
  let pt := vpn % NR_PTES_PER_PAGE
  match getDir (ptbrTable s) pd with
  | none => none
  | some d =>
      let e := d.getD pt Pte.initial
      if !e.writable && (rw == 2 || rw == 3) && e.priv then
        hpfResolve s vpn e
      else some (s, false)

/-- The linear first-match scan of the ready queue (list_for_each_entry in
switch_process), returning the index of the first process with this pid. -/
def findProcIdx : List Process → Nat → Option Nat
  | [], _ => none
  | p :: rest, pid =>
      if p.pid = pid then some 0 else (findProcIdx rest pid).map fun k => k + 1

/-- One directory of the fork loop (switch_process lines 207-223, inner j
loop): per entry, set the child's private bit when the parent entry is
writable or private, copy valid and pfn, bump mapcounts for valid parent
entries, and force the child's writable to false.  The parent directory is
never written. -/
def forkDir (pdir cdir : PteDir) (mc : List Nat) : PteDir × List Nat :=
  (List.range NR_PTES_PER_PAGE).foldl
    (fun a j =>
      let pe := pdir.getD j Pte.initial
      let ce := a.1.getD j Pte.initial
      let ce1 := if pe.writable || pe.priv then { ce with priv := true } else ce
      let mc2 := if pe.valid then a.2.set pe.pfn (u32inc (mcGet a.2 pe.pfn)) else a.2
      (a.1.set j { ce1 with valid := pe.valid, pfn := pe.pfn, writable := false }, mc2))
    (cdir, mc)

/-- The outer i loop of the fork branch: outer slots where the parent
directory is NULL are skipped (the break on line 209), otherwise the child
directory is lazily allocated (zeroed) and filled by forkDir. -/
def forkTable (parent child : Pagetable) (mc : List Nat) : Pagetable × List Nat :=
  (List.range (NR_PAGEFRAMES / NR_PTES_PER_PAGE)).foldl
    (fun a i =>
      match getDir parent i with
      | none => a
      | some pdir =>
          let r := forkDir pdir ((getDir a.1 i).getD emptyDir) a.2
          (a.1.set i (some r.1), r.2))
    (child, mc)

/-- One directory of the found-process branch of switch_process (lines
230-247, inner j loop): set the target's private bit when the current
entry is writable or private, copy valid and pfn only into entries of the
target that are invalid (without touching mapcounts), and force the
target's writable to false. -/
def switchDir (pdir cdir : PteDir) : PteDir :=
  (List.range NR_PTES_PER_PAGE).foldl
    (fun a j =>
      let pe := pdir.getD j Pte.initial
      let ce := a.getD j Pte.initial
      let ce1 := if pe.writable || pe.priv then { ce with priv := true } else ce
      let ce2 := if ce1.valid then ce1 else { ce1 with valid := pe.valid, pfn := pe.pfn }
      a.set j { ce2 with writable := false })
    cdir

/-- The outer i loop of the found-process branch. -/
def switchTable (parent child : Pagetable) : Pagetable :=
  (List.range (NR_PAGEFRAMES / NR_PTES_PER_PAGE)).foldl
    (fun a i =>
      match getDir parent i with
      | none => a
      | some pdir => a.set i (some (switchDir pdir ((getDir a i).getD emptyDir))))
    child

/-- switch_process (src/pa2.c lines 182-255).  When the pid is found in the
queue, the found branch runs switchTable over the target's table and makes
it current; otherwise a fresh process is appended to the queue, its table is
built by forkTable from the current table, and it becomes current.  In both
branches ptbr ends pointing at the new current's table (modelled by the
current index). -/
def switch_process (s : MMU) (pid : Nat) : MMU :=
  match findProcIdx s.processes pid with
  | some k =>
      let p := s.processes.getD k defaultProcess
      { s with
          processes := s.processes.set k { p with pagetable := switchTable (ptbrTable s) p.pagetable },
          current := some k }
  | none =>
      let r := forkTable (ptbrTable s) emptyTable s.mapcounts
      { s with
          processes := s.processes ++ [{ pid := pid, pagetable := r.1 }],
          mapcounts := r.2,
          current := some s.processes.length }

/-- Modelled from the spec: the fresh system state the driver starts from
(empty registry, one primordial current process with an empty table, all
reference counts zero). -/
def initState : MMU :=
  { processes := []
    initProc := { pid := 0, pagetable := emptyTable }
    current := none
    mapcounts := List.replicate NR_PAGEFRAMES 0 }

/-- Number of valid PTEs of one directory whose frame is f. -/
def countDir (d : PteDir) (f : Nat) : Nat :=
  (d.filter fun e => e.valid && e.pfn == f).length

/-- Number of valid PTEs of one page table whose frame is f. -/
def countTable (t : Pagetable) (f : Nat) : Nat :=
  (t.map fun od => match od with | none => 0 | some d => countDir d f).sum

/-- Number of valid PTEs across every process (primordial and queued) whose
frame is f: what the spec invariant says mapcounts[f] must equal. -/
def countAll (s : MMU) (f : Nat) : Nat :=
  countTable s.initProc.pagetable f + (s.processes.map fun p => countTable p.pagetable f).sum

/-- Structural well-formedness of a page table: NR_OUTER outer slots, every
present directory of length NR_PTES_PER_PAGE. -/
def wfTable (t : Pagetable) : Bool :=
  (t.length == NR_OUTER) &&
    t.all fun od => match od with | none => true | some d => d.length == NR_PTES_PER_PAGE

/-- Structural well-formedness of a state: the mapcounts array has
NR_PAGEFRAMES slots, every table is well formed, and the current index is
in range. -/
def wfState (s : MMU) : Bool :=
  (s.mapcounts.length == NR_PAGEFRAMES) &&
    wfTable s.initProc.pagetable &&
    (s.processes.all fun p => wfTable p.pagetable) &&
    (match s.current with
     | none => true
     | some i => decide (i < s.processes.length))

/-- The tables of all processes, primordial first then queue order. -/
def tableAt (s : MMU) (k : Nat) : Pagetable :=
  if k = 0 then s.initProc.pagetable
  else (s.processes.getD (k - 1) defaultProcess).pagetable

/-- The position of the current process in the tableAt numbering. -/
def curPos (s : MMU) : Nat :=
  match s.current with
  | none => 0
  | some i => i + 1

/-- The entry at vpn as the code sees it after the lazy directory
allocation (a zeroed entry when the directory is absent). -/
def curPte (s : MMU) (vpn : Nat) : Pte :=
  ((getDir (ptbrTable s) (vpn / NR_PTES_PER_PAGE)).getD emptyDir).getD
    (vpn % NR_PTES_PER_PAGE) Pte.initial

/-! Generic facts about list indexing used throughout. -/

theorem getD_set_self {α : Type _} (xs : List α) (i : Nat) (v d : α)
    (h : i < xs.length) : (xs.set i v).getD i d = v := by
  induction xs generalizing i with
  | nil => simp at h
  | cons x xs ih =>
    cases i with
    | zero => rfl
    | succ n => exact ih n (Nat.lt_of_succ_lt_succ h)

theorem getD_set_ne {α : Type _} (xs : List α) (i j : Nat) (v d : α)
    (h : i ≠ j) : (xs.set i v).getD j d = xs.getD j d := by
  induction xs generalizing i j with
  | nil => rfl
  | cons x xs ih =>
    cases i with
    | zero =>
      cases j with
      | zero => exact absurd rfl h
      | succ m => rfl
    | succ n =>
      cases j with
      | zero => rfl
      | succ m => exact ih n m (fun hnm => h (by rw [hnm]))

theorem getD_oob {α : Type _} (xs : List α) (i : Nat) (d : α)
    (h : xs.length ≤ i) : xs.getD i d = d := by
  induction xs generalizing i with
  | nil => rfl
  | cons x xs ih =>
    cases i with
    | zero => simp at h
    | succ n => exact ih n (Nat.le_of_succ_le_succ h)

theorem getD_mem {α : Type _} (xs : List α) (i : Nat) (d : α)
    (h : i < xs.length) : xs.getD i d ∈ xs := by
  induction xs generalizing i with
  | nil => simp at h
  | cons x xs ih =>
    cases i with
    | zero => exact List.mem_cons_self x xs
    | succ n => exact List.mem_cons_of_mem x (ih n (Nat.lt_of_succ_lt_succ h))

theorem sum_set (xs : List Nat) (i : Nat) (v : Nat) (h : i < xs.length) :
    (xs.set i v).sum + xs.getD i 0 = xs.sum + v := by
  induction xs generalizing i with
  | nil => simp at h
  | cons x xs ih =>
    cases i with
    | zero => simp [List.sum_cons]; omega
    | succ n =>
      have := ih n (Nat.lt_of_succ_lt_succ h)
      show (x :: xs.set n v).sum + xs.getD n 0 = (x :: xs).sum + v
      simp only [List.sum_cons]
      omega

/-! Facts about the free-frame scan. -/

theorem findFreeFrame_spec (mc : List Nat) (f : Nat)
    (h : findFreeFrame mc = some f) :
    f < mc.length ∧ mcGet mc f = 0 ∧ ∀ j, j < f → mcGet mc j ≠ 0 := by
  induction mc generalizing f with
  | nil => simp [findFreeFrame] at h
  | cons c rest ih =>
    by_cases hc : c = 0
    · simp [findFreeFrame, hc] at h
      subst h
      refine ⟨by simp, by simpa [mcGet] using hc, ?_⟩
      intro j hj; omega
    · simp [findFreeFrame, hc] at h
      obtain ⟨k, hk, hfk⟩ := h
      obtain ⟨h1, h2, h3⟩ := ih k hk
      subst hfk
      refine ⟨by simpa using h1, by simpa [mcGet] using h2, ?_⟩
      intro j hj
      cases j with
      | zero => simpa [mcGet] using hc
      | succ m => exact h3 m (Nat.lt_of_succ_lt_succ hj)

theorem findFreeFrame_isSome (mc : List Nat) (i : Nat)
    (hi : i < mc.length) (h0 : mcGet mc i = 0) :
    ∃ f, findFreeFrame mc = some f := by
  induction mc generalizing i with
  | nil => simp at hi
  | cons c rest ih =>
    by_cases hc : c = 0
    · exact ⟨0, by simp [findFreeFrame, hc]⟩
    · cases i with
      | zero => exact absurd h0 (by simpa [mcGet] using hc)
      | succ n =>
        obtain ⟨f, hf⟩ :=
          ih n (Nat.lt_of_succ_lt_succ hi) (by simpa [mcGet] using h0)
        exact ⟨f + 1, by simp [findFreeFrame, hc, hf]⟩

theorem findFreeFrame_none (mc : List Nat) (h : ∀ c ∈ mc, c ≠ 0) :
    findFreeFrame mc = none := by
  induction mc with
  | nil => rfl
  | cons c rest ih =>
    have hc : c ≠ 0 := h c (List.mem_cons_self c rest)
    simp [findFreeFrame, hc, ih fun x hx => h x (List.mem_cons_of_mem c hx)]

theorem findFreeFrame_set_nonzero (mc : List Nat) (k v : Nat)
    (hv : v ≠ 0) (hk : mcGet mc k ≠ 0) :
    findFreeFrame (mc.set k v) = findFreeFrame mc := by
  induction mc generalizing k with
  | nil => rfl
  | cons c rest ih =>
    cases k with
    | zero =>
      have hc : c ≠ 0 := by simpa [mcGet] using hk
      simp [findFreeFrame, hv, hc]
    | succ n =>
      by_cases hc : c = 0
      · simp [findFreeFrame, hc]
      · simp [findFreeFrame, hc, ih n (by simpa [mcGet] using hk)]

/-! Record-level facts about the state accessors. -/

theorem ptbrTable_mapcounts (s : MMU) (m : List Nat) :
    ptbrTable { s with mapcounts := m } = ptbrTable s := rfl

theorem setPtbrTable_mapcounts (s : MMU) (t : Pagetable) :
    (setPtbrTable s t).mapcounts = s.mapcounts := by
  rcases s with ⟨ps, ip, cur, mc⟩
  cases cur <;> rfl

theorem setPtbrTable_current (s : MMU) (t : Pagetable) :
    (setPtbrTable s t).current = s.current := by
  rcases s with ⟨ps, ip, cur, mc⟩
  cases cur <;> rfl

theorem ptbrTable_setPtbrTable (s : MMU) (t : Pagetable)
    (hcur : ∀ i, s.current = some i → i < s.processes.length) :
    ptbrTable (setPtbrTable s t) = t := by
  rcases s with ⟨ps, ip, cur, mc⟩
  cases cur with
  | none => rfl
  | some i =>
    have hi : i < ps.length := hcur i rfl
    simp only [ptbrTable, setPtbrTable]
    rw [getD_set_self ps i _ defaultProcess hi]

theorem curPos_mapcounts (s : MMU) (m : List Nat) :
    curPos { s with mapcounts := m } = curPos s := rfl

theorem tableAt_mapcounts (s : MMU) (m : List Nat) (k : Nat) :
    tableAt { s with mapcounts := m } k = tableAt s k := rfl

theorem tableAt_setPtbrTable (s : MMU) (t : Pagetable) (k : Nat)
    (hk : k ≠ curPos s) : tableAt (setPtbrTable s t) k = tableAt s k := by
  rcases s with ⟨ps, ip, cur, mc⟩
  cases cur with
  | none =>
    have h0 : k ≠ 0 := by simpa [curPos] using hk
    simp [tableAt, setPtbrTable, h0]
  | some i =>
    have hki : k ≠ i + 1 := by simpa [curPos] using hk
    by_cases h0 : k = 0
    · simp [tableAt, setPtbrTable, h0]
    · simp only [tableAt, setPtbrTable, if_neg h0]
      rw [getD_set_ne ps i (k - 1) _ defaultProcess (by omega)]

/-! Extracting the components of structural well-formedness. -/

theorem wfState_cur (s : MMU) (h : wfState s = true) :
    ∀ i, s.current = some i → i < s.processes.length := by
  intro i hi
  unfold wfState at h
  rw [hi] at h
  simp only [Bool.and_eq_true, decide_eq_true_eq] at h
  exact h.2

theorem wfState_mclen (s : MMU) (h : wfState s = true) :
    s.mapcounts.length = NR_PAGEFRAMES := by
  unfold wfState at h
  simp only [Bool.and_eq_true, beq_iff_eq] at h
  exact h.1.1.1

theorem wfTable_len (t : Pagetable) (h : wfTable t = true) :
    t.length = NR_OUTER := by
  unfold wfTable at h
  simp only [Bool.and_eq_true, beq_iff_eq] at h
  exact h.1

theorem getDir_some_lt (t : Pagetable) (pd : Nat) (d : PteDir)
    (h : getDir t pd = some d) : pd < t.length := by
  by_contra hc
  push_neg at hc
  rw [getDir, getD_oob t pd none hc] at h
  exact Option.noConfusion h

theorem wfTable_dir (t : Pagetable) (h : wfTable t = true) (pd : Nat)
    (d : PteDir) (hd : getDir t pd = some d) :
    d.length = NR_PTES_PER_PAGE := by
  have hlt : pd < t.length := getDir_some_lt t pd d hd
  have hmem : some d ∈ t := by
    have := getD_mem t pd none hlt
    rwa [show t.getD pd none = some d from hd] at this
  unfold wfTable at h
  simp only [Bool.and_eq_true, List.all_eq_true] at h
  have := h.2 (some d) hmem
  simpa [beq_iff_eq] using this

theorem wfState_ptbr (s : MMU) (h : wfState s = true) :
    wfTable (ptbrTable s) = true := by
  have h' := h
  unfold wfState at h'
  simp only [Bool.and_eq_true, List.all_eq_true] at h'
  rcases s with ⟨ps, ip, cur, mc⟩
  cases cur with
  | none => exact h'.1.1.2
  | some i =>
    have hi : i < ps.length := wfState_cur _ h i rfl
    have hmem : ps.getD i defaultProcess ∈ ps := getD_mem ps i defaultProcess hi
    exact h'.1.2 _ hmem

/-! Reading and writing single entries of a page table. -/

theorem getDir_ensureDir (t : Pagetable) (pd : Nat) (hpd : pd < t.length) :
    getDir (ensureDir t pd) pd = some ((getDir t pd).getD emptyDir) := by
  unfold ensureDir
  cases hg : getDir t pd with
  | some d => simp [hg]
  | none =>
    show (t.set pd (some emptyDir)).getD pd none = some (Option.getD none emptyDir)
    rw [getD_set_self t pd _ none hpd]
    rfl

theorem getDir_modifyPte_self (t : Pagetable) (pd pt : Nat) (f : Pte → Pte)
    (d : PteDir) (hd : getDir t pd = some d) :
    getDir (modifyPte t pd pt f) pd =
      some (d.set pt (f (d.getD pt Pte.initial))) := by
  unfold modifyPte
  rw [hd]
  exact getD_set_self t pd _ none (getDir_some_lt t pd d hd)

theorem getDir_modifyPte_ne (t : Pagetable) (pd pt : Nat) (f : Pte → Pte)
    (pd' : Nat) (h : pd' ≠ pd) :
    getDir (modifyPte t pd pt f) pd' = getDir t pd' := by
  unfold modifyPte
  cases hg : getDir t pd with
  | none => rfl
  | some d => exact getD_set_ne t pd pd' _ none (fun he => h he.symm)

theorem getPte_modifyPte_self (t : Pagetable) (pd pt : Nat) (f : Pte → Pte)
    (d : PteDir) (hd : getDir t pd = some d) (hpt : pt < d.length) :
    getPte (modifyPte t pd pt f) pd pt = some (f (d.getD pt Pte.initial)) := by
  unfold getPte
  rw [getDir_modifyPte_self t pd pt f d hd]
  simp only [Option.map_some']
  rw [getD_set_self d pt _ Pte.initial hpt]

theorem modifyPte_absent (t : Pagetable) (pd pt : Nat) (f : Pte → Pte)
    (hg : getDir t pd = none) : modifyPte t pd pt f = t := by
  unfold modifyPte
  rw [hg]

theorem getPte_modifyPte_ne (t : Pagetable) (pd pt : Nat) (f : Pte → Pte)
    (pd' pt' : Nat) (h : pd' ≠ pd ∨ pt' ≠ pt) :
    getPte (modifyPte t pd pt f) pd' pt' = getPte t pd' pt' := by
  by_cases hpd : pd' = pd
  · subst hpd
    have hpt : pt' ≠ pt := h.resolve_left (fun hc => hc rfl)
    cases hg : getDir t pd' with
    | none => rw [modifyPte_absent t pd' pt f hg]
    | some d =>
      unfold getPte
      rw [getDir_modifyPte_self t pd' pt f d hg, hg]
      simp only [Option.map_some']
      rw [getD_set_ne d pt pt' _ Pte.initial (fun he => hpt he.symm)]
  · unfold getPte
    rw [getDir_modifyPte_ne t pd pt f pd' hpd]

theorem rw_writable_eq_testBit (rw : Nat) (h : rw < 4) :
    ((rw == 2 || rw == 3) : Bool) = rw.testBit 1 := by
  have h4 : rw = 0 ∨ rw = 1 ∨ rw = 2 ∨ rw = 3 := by omega
  rcases h4 with h' | h' | h' | h' <;> subst h' <;> decide

/-! Claim theorems. -/

/-- C4: whenever at least one frame has reference count zero, alloc_page
returns the smallest-indexed frame whose reference count is zero at call
time, sets the entry for the vpn to valid with that frame (allocating the
directory lazily if absent — the directory is present afterwards), sets
writable to true iff bit 1 of the permission argument is set, and
increments that frame's reference count by one.  (rw < 4 reflects the
2-bit permission mask of the spec; vpn ranges over the table.) -/
theorem alloc_page_spec (s : MMU) (vpn rw : Nat)
    (hwf : wfState s = true) (hvpn : vpn < NR_PAGEFRAMES) (hrw : rw < 4)
    (hfree : ∃ i, i < s.mapcounts.length ∧ mcGet s.mapcounts i = 0) :
    ∃ s' f, alloc_page s vpn rw = some (s', f) ∧
      mcGet s.mapcounts f = 0 ∧
      (∀ j, j < f → mcGet s.mapcounts j ≠ 0) ∧
      (getDir (ptbrTable s') (vpn / NR_PTES_PER_PAGE)).isSome = true ∧
      getPte (ptbrTable s') (vpn / NR_PTES_PER_PAGE) (vpn % NR_PTES_PER_PAGE) =
        some { valid := true, writable := rw.testBit 1,
               priv := (curPte s vpn).priv, pfn := f } ∧
      mcGet s'.mapcounts f = mcGet s.mapcounts f + 1 := by
  obtain ⟨i0, hi0, h00⟩ := hfree
  obtain ⟨f, hf⟩ := findFreeFrame_isSome s.mapcounts i0 hi0 h00
  obtain ⟨hflt, hf0, hfmin⟩ := findFreeFrame_spec s.mapcounts f hf
  have hwtab : wfTable (ptbrTable s) = true := wfState_ptbr s hwf
  have hpd : vpn / NR_PTES_PER_PAGE < (ptbrTable s).length := by
    rw [wfTable_len _ hwtab]
    simp only [NR_OUTER, NR_PAGEFRAMES, NR_PTES_PER_PAGE] at hvpn ⊢
    omega
  have hd0 : getDir (ensureDir (ptbrTable s) (vpn / NR_PTES_PER_PAGE))
      (vpn / NR_PTES_PER_PAGE) =
      some ((getDir (ptbrTable s) (vpn / NR_PTES_PER_PAGE)).getD emptyDir) :=
    getDir_ensureDir _ _ hpd
  have hd0len :
      ((getDir (ptbrTable s) (vpn / NR_PTES_PER_PAGE)).getD emptyDir).length =
        NR_PTES_PER_PAGE := by
    cases hg : getDir (ptbrTable s) (vpn / NR_PTES_PER_PAGE) with
    | none => simp [emptyDir]
    | some d => simpa using wfTable_dir _ hwtab _ d hg
  have hpt : vpn % NR_PTES_PER_PAGE <
      ((getDir (ptbrTable s) (vpn / NR_PTES_PER_PAGE)).getD emptyDir).length := by
    rw [hd0len]
    exact Nat.mod_lt _ (by decide)
  have hd1 : getDir (modifyPte (ensureDir (ptbrTable s) (vpn / NR_PTES_PER_PAGE))
      (vpn / NR_PTES_PER_PAGE) (vpn % NR_PTES_PER_PAGE)
      (fun e => { e with valid := true, writable := rw == 2 || rw == 3 }))
      (vpn / NR_PTES_PER_PAGE) =
      some (((getDir (ptbrTable s) (vpn / NR_PTES_PER_PAGE)).getD emptyDir).set
        (vpn % NR_PTES_PER_PAGE)
        ({ ((getDir (ptbrTable s) (vpn / NR_PTES_PER_PAGE)).getD emptyDir).getD
            (vpn % NR_PTES_PER_PAGE) Pte.initial with
           valid := true, writable := rw == 2 || rw == 3 })) :=
    getDir_modifyPte_self _ _ _ _ _ hd0
  have hcur2 : ∀ i,
      ({ s with mapcounts :=
          s.mapcounts.set f (u32inc (mcGet s.mapcounts f)) } : MMU).current = some i →
      i < ({ s with mapcounts :=
          s.mapcounts.set f (u32inc (mcGet s.mapcounts f)) } : MMU).processes.length :=
    fun i hi => wfState_cur s hwf i hi
  refine ⟨setPtbrTable
      { s with mapcounts := s.mapcounts.set f (u32inc (mcGet s.mapcounts f)) }
      (modifyPte (modifyPte (ensureDir (ptbrTable s) (vpn / NR_PTES_PER_PAGE))
          (vpn / NR_PTES_PER_PAGE) (vpn % NR_PTES_PER_PAGE)
          (fun e => { e with valid := true, writable := rw == 2 || rw == 3 }))
        (vpn / NR_PTES_PER_PAGE) (vpn % NR_PTES_PER_PAGE)
        (fun e => { e with pfn := f })), f, ?_, hf0, hfmin, ?_, ?_, ?_⟩
  · simp only [alloc_page]
    rw [hf]
  · rw [ptbrTable_setPtbrTable _ _ hcur2]
    rw [getDir_modifyPte_self _ _ _ _ _ hd1]
    rfl
  · rw [ptbrTable_setPtbrTable _ _ hcur2]
    rw [getPte_modifyPte_self _ _ _ _ _ hd1 (by simpa using hpt)]
    rw [getD_set_self _ _ _ _ hpt]
    rw [show ((rw == 2 || rw == 3) : Bool) = rw.testBit 1 from
      rw_writable_eq_testBit rw hrw]
    rfl
  · rw [setPtbrTable_mapcounts]
    show mcGet (s.mapcounts.set f (u32inc (mcGet s.mapcounts f))) f =
      mcGet s.mapcounts f + 1
    rw [mcGet, getD_set_self _ _ _ _ hflt, hf0]
    rfl

/-! Branch lemmas for handle_page_fault. -/

theorem handle_page_fault_cow (s : MMU) (vpn rw : Nat) (d : PteDir)
    (hd : getDir (ptbrTable s) (vpn / NR_PTES_PER_PAGE) = some d)
    (e : Pte) (he : d.getD (vpn % NR_PTES_PER_PAGE) Pte.initial = e)
    (hcond : (!e.writable && (rw == 2 || rw == 3) && e.priv) = true) :
    handle_page_fault s vpn rw = hpfResolve s vpn e := by
  have h1 : handle_page_fault s vpn rw =
      (if !(d.getD (vpn % NR_PTES_PER_PAGE) Pte.initial).writable &&
          (rw == 2 || rw == 3) &&
          (d.getD (vpn % NR_PTES_PER_PAGE) Pte.initial).priv then
        hpfResolve s vpn (d.getD (vpn % NR_PTES_PER_PAGE) Pte.initial)
      else some (s, false)) := by
    simp only [handle_page_fault]
    rw [hd]
  rw [he] at h1
  rw [h1, if_pos hcond]

theorem hpfResolve_one (s : MMU) (vpn : Nat) (e : Pte)
    (hmc : ¬ 1 < mcGet s.mapcounts e.pfn) :
    hpfResolve s vpn e =
      some (setPtbrTable s
        (modifyPte (ptbrTable s) (vpn / NR_PTES_PER_PAGE) (vpn % NR_PTES_PER_PAGE)
          fun x => { x with writable := true }), true) := by
  simp only [hpfResolve]
  rw [if_neg hmc]

theorem hpfResolve_many (s : MMU) (vpn : Nat) (e : Pte) (i : Nat)
    (hmc : 1 < mcGet s.mapcounts e.pfn)
    (hf : findFreeFrame (s.mapcounts.set e.pfn (u32dec (mcGet s.mapcounts e.pfn))) =
      some i) :
    hpfResolve s vpn e =
      some (setPtbrTable
        { s with mapcounts :=
            ((s.mapcounts.set e.pfn (u32dec (mcGet s.mapcounts e.pfn))).set i
              (u32inc (mcGet (s.mapcounts.set e.pfn (u32dec (mcGet s.mapcounts e.pfn))) i))) }
        (modifyPte (modifyPte (ptbrTable s) (vpn / NR_PTES_PER_PAGE)
            (vpn % NR_PTES_PER_PAGE) fun x => { x with writable := true })
          (vpn / NR_PTES_PER_PAGE) (vpn % NR_PTES_PER_PAGE)
          fun x => { x with pfn := i }), true) := by
  simp only [hpfResolve]
  rw [if_pos hmc, hf]

/-- C7: a COW fault (write access, entry valid, not writable, private) on an
entry whose backing frame has reference count exactly 1 sets writable on the
entry, never changes the entry's frame index or any reference count, and
returns true. -/
theorem hpf_refcount_one_spec (s : MMU) (vpn rw : Nat)
    (hwf : wfState s = true)
    (d : PteDir) (hd : getDir (ptbrTable s) (vpn / NR_PTES_PER_PAGE) = some d)
    (e : Pte) (he : d.getD (vpn % NR_PTES_PER_PAGE) Pte.initial = e)
    (hvalid : e.valid = true) (hw : e.writable = false) (hp : e.priv = true)
    (hrw : rw = 2 ∨ rw = 3)
    (hmc : mcGet s.mapcounts e.pfn = 1) :
    ∃ s', handle_page_fault s vpn rw = some (s', true) ∧
      getPte (ptbrTable s') (vpn / NR_PTES_PER_PAGE) (vpn % NR_PTES_PER_PAGE) =
        some { e with writable := true } ∧
      s'.mapcounts = s.mapcounts := by
  have hcond : (!e.writable && (rw == 2 || rw == 3) && e.priv) = true := by
    rw [hw, hp]
    rcases hrw with h | h <;> subst h <;> decide
  have hred := handle_page_fault_cow s vpn rw d hd e he hcond
  have hone := hpfResolve_one s vpn e (by rw [hmc]; omega)
  have hptlen : vpn % NR_PTES_PER_PAGE < d.length := by
    rw [wfTable_dir _ (wfState_ptbr s hwf) _ d hd]
    exact Nat.mod_lt _ (by decide)
  refine ⟨_, by rw [hred, hone], ?_, setPtbrTable_mapcounts s _⟩
  rw [ptbrTable_setPtbrTable s _ (wfState_cur s hwf)]
  rw [getPte_modifyPte_self _ _ _ _ d hd hptlen, he]

/-- The entry used in the concrete COW witness states. -/
def cowPte : Pte := { valid := true, writable := false, priv := true, pfn := 0 }

def cowDir : PteDir := emptyDir.set 0 cowPte

def cowTable : Pagetable := emptyTable.set 0 (some cowDir)

/-- A state with one COW-protected mapping of frame 0 and mapcounts[0] = 1. -/
def sCow1 : MMU :=
  { processes := []
    initProc := { pid := 0, pagetable := cowTable }
    current := none
    mapcounts := (List.replicate NR_PAGEFRAMES 0).set 0 1 }

/-- Same mapping, but frame 0 counted twice (shared after a fork). -/
def sCow2 : MMU := { sCow1 with mapcounts := (List.replicate NR_PAGEFRAMES 0).set 0 2 }

/-- Witness: hpf_refcount_one_spec applied to the concrete COW state. -/
theorem hpf_refcount_one_spec_witness :
    ∃ s', handle_page_fault sCow1 0 3 = some (s', true) ∧
      getPte (ptbrTable s') (0 / NR_PTES_PER_PAGE) (0 % NR_PTES_PER_PAGE) =
        some { cowPte with writable := true } ∧
      s'.mapcounts = sCow1.mapcounts :=
  hpf_refcount_one_spec sCow1 0 3 (by decide) cowDir (by decide) cowPte (by decide)
    (by decide) (by decide) (by decide) (Or.inr rfl) (by decide)

/-- C8: a COW fault on an entry whose backing frame has reference count
greater than 1 decrements the old frame's count by one, repoints the entry
to the lowest-indexed frame whose count is zero, increments that frame's
count by one, sets writable, returns true, and leaves the total reference
count over all frames unchanged. -/
theorem hpf_refcount_many_spec (s : MMU) (vpn rw : Nat)
    (hwf : wfState s = true)
    (d : PteDir) (hd : getDir (ptbrTable s) (vpn / NR_PTES_PER_PAGE) = some d)
    (e : Pte) (he : d.getD (vpn % NR_PTES_PER_PAGE) Pte.initial = e)
    (hvalid : e.valid = true) (hw : e.writable = false) (hp : e.priv = true)
    (hrw : rw = 2 ∨ rw = 3)
    (hmc : 1 < mcGet s.mapcounts e.pfn)
    (hlt : mcGet s.mapcounts e.pfn < U32MOD)
    (hfree : ∃ i, i < s.mapcounts.length ∧ mcGet s.mapcounts i = 0) :
    ∃ s' f, handle_page_fault s vpn rw = some (s', true) ∧
      mcGet s.mapcounts f = 0 ∧
      (∀ j, j < f → mcGet s.mapcounts j ≠ 0) ∧
      f ≠ e.pfn ∧
      getPte (ptbrTable s') (vpn / NR_PTES_PER_PAGE) (vpn % NR_PTES_PER_PAGE) =
        some { e with writable := true, pfn := f } ∧
      mcGet s'.mapcounts e.pfn = mcGet s.mapcounts e.pfn - 1 ∧
      mcGet s'.mapcounts f = mcGet s.mapcounts f + 1 ∧
      s'.mapcounts.sum = s.mapcounts.sum := by
  have hcond : (!e.writable && (rw == 2 || rw == 3) && e.priv) = true := by
    rw [hw, hp]
    rcases hrw with h | h <;> subst h <;> decide
  have hred := handle_page_fault_cow s vpn rw d hd e he hcond
  have hpfnlt : e.pfn < s.mapcounts.length := by
    by_contra hc
    push_neg at hc
    rw [mcGet, getD_oob _ _ _ hc] at hmc
    omega
  have hdec : u32dec (mcGet s.mapcounts e.pfn) = mcGet s.mapcounts e.pfn - 1 := by
    simp only [u32dec, U32MOD] at hlt ⊢
    omega
  have hnz : mcGet s.mapcounts e.pfn ≠ 0 := by omega
  have hvnz : u32dec (mcGet s.mapcounts e.pfn) ≠ 0 := by rw [hdec]; omega
  have hscan :
      findFreeFrame (s.mapcounts.set e.pfn (u32dec (mcGet s.mapcounts e.pfn))) =
        findFreeFrame s.mapcounts :=
    findFreeFrame_set_nonzero _ _ _ hvnz hnz
  obtain ⟨i0, hi0, h00⟩ := hfree
  obtain ⟨f, hf⟩ := findFreeFrame_isSome s.mapcounts i0 hi0 h00
  obtain ⟨hflt, hf0, hfmin⟩ := findFreeFrame_spec s.mapcounts f hf
  have hf' :
      findFreeFrame (s.mapcounts.set e.pfn (u32dec (mcGet s.mapcounts e.pfn))) =
        some f := by rw [hscan, hf]
  have hfne : f ≠ e.pfn := by
    intro hc
    rw [hc] at hf0
    omega
  have hmany := hpfResolve_many s vpn e f hmc hf'
  have hmc1f :
      mcGet (s.mapcounts.set e.pfn (u32dec (mcGet s.mapcounts e.pfn))) f = 0 := by
    rw [mcGet, getD_set_ne _ _ _ _ _ (fun hh => hfne hh.symm)]
    exact hf0
  have hptlen : vpn % NR_PTES_PER_PAGE < d.length := by
    rw [wfTable_dir _ (wfState_ptbr s hwf) _ d hd]
    exact Nat.mod_lt _ (by decide)
  have hd1 := getDir_modifyPte_self (ptbrTable s) (vpn / NR_PTES_PER_PAGE)
    (vpn % NR_PTES_PER_PAGE) (fun x => { x with writable := true }) d hd
  have hcur2 : ∀ j,
      ({ s with mapcounts :=
          ((s.mapcounts.set e.pfn (u32dec (mcGet s.mapcounts e.pfn))).set f
            (u32inc (mcGet (s.mapcounts.set e.pfn (u32dec (mcGet s.mapcounts e.pfn))) f))) } :
        MMU).current = some j →
      j < ({ s with mapcounts :=
          ((s.mapcounts.set e.pfn (u32dec (mcGet s.mapcounts e.pfn))).set f
            (u32inc (mcGet (s.mapcounts.set e.pfn (u32dec (mcGet s.mapcounts e.pfn))) f))) } :
        MMU).processes.length :=
    fun j hj => wfState_cur s hwf j hj
  refine ⟨_, f, by rw [hred, hmany], hf0, hfmin, hfne, ?_, ?_, ?_, ?_⟩
  · rw [ptbrTable_setPtbrTable _ _ hcur2]
    rw [getPte_modifyPte_self _ _ _ _ _ hd1 (by simpa using hptlen)]
    rw [getD_set_self _ _ _ _ hptlen, he]
  · rw [setPtbrTable_mapcounts]
    show mcGet ((s.mapcounts.set e.pfn (u32dec (mcGet s.mapcounts e.pfn))).set f
      (u32inc (mcGet (s.mapcounts.set e.pfn (u32dec (mcGet s.mapcounts e.pfn))) f)))
      e.pfn = mcGet s.mapcounts e.pfn - 1
    rw [mcGet, getD_set_ne _ _ _ _ _ hfne]
    rw [show (s.mapcounts.set e.pfn (u32dec (mcGet s.mapcounts e.pfn))).getD e.pfn 0 =
      u32dec (mcGet s.mapcounts e.pfn) from getD_set_self _ _ _ _ hpfnlt]
    exact hdec
  · rw [setPtbrTable_mapcounts]
    show mcGet ((s.mapcounts.set e.pfn (u32dec (mcGet s.mapcounts e.pfn))).set f
      (u32inc (mcGet (s.mapcounts.set e.pfn (u32dec (mcGet s.mapcounts e.pfn))) f)))
      f = mcGet s.mapcounts f + 1
    rw [mcGet, getD_set_self _ _ _ _ (by rw [List.length_set]; exact hflt)]
    rw [hmc1f, hf0]
    rfl
  · rw [setPtbrTable_mapcounts]
    show ((s.mapcounts.set e.pfn (u32dec (mcGet s.mapcounts e.pfn))).set f
        (u32inc (mcGet (s.mapcounts.set e.pfn (u32dec (mcGet s.mapcounts e.pfn))) f))).sum =
      s.mapcounts.sum
    rw [hmc1f]
    have hs1 := sum_set s.mapcounts e.pfn (u32dec (mcGet s.mapcounts e.pfn)) hpfnlt
    have hs2 := sum_set (s.mapcounts.set e.pfn (u32dec (mcGet s.mapcounts e.pfn))) f
      (u32inc 0) (by rw [List.length_set]; exact hflt)
    have hgd2 : (s.mapcounts.set e.pfn (u32dec (mcGet s.mapcounts e.pfn))).getD f 0 = 0 :=
      hmc1f
    have hold : s.mapcounts.getD e.pfn 0 = mcGet s.mapcounts e.pfn := rfl
    have hinc : u32inc 0 = 1 := rfl
    omega

/-- Witness: hpf_refcount_many_spec applied to the concrete shared COW
state (mapcounts[0] = 2). -/
theorem hpf_refcount_many_spec_witness :
    ∃ s' f, handle_page_fault sCow2 0 3 = some (s', true) ∧
      mcGet sCow2.mapcounts f = 0 ∧
      (∀ j, j < f → mcGet sCow2.mapcounts j ≠ 0) ∧
      f ≠ cowPte.pfn ∧
      getPte (ptbrTable s') (0 / NR_PTES_PER_PAGE) (0 % NR_PTES_PER_PAGE) =
        some { cowPte with writable := true, pfn := f } ∧
      mcGet s'.mapcounts cowPte.pfn = mcGet sCow2.mapcounts cowPte.pfn - 1 ∧
      mcGet s'.mapcounts f = mcGet sCow2.mapcounts f + 1 ∧
      s'.mapcounts.sum = sCow2.mapcounts.sum :=
  hpf_refcount_many_spec sCow2 0 3 (by decide) cowDir (by decide) cowPte (by decide)
    (by decide) (by decide) (by decide) (Or.inr rfl) (by decide) (by decide)
    ⟨1, by decide, by decide⟩

/-- C10: handle_page_fault never clears the private flag — in both the
refcount-1 and refcount-greater-1 resolution branches the entry keeps its
private (and valid) value, with only writable and the frame index of the
entry changing. -/
theorem hpf_preserves_priv (s : MMU) (vpn rw : Nat)
    (hwf : wfState s = true)
    (d : PteDir) (hd : getDir (ptbrTable s) (vpn / NR_PTES_PER_PAGE) = some d)
    (e : Pte) (he : d.getD (vpn % NR_PTES_PER_PAGE) Pte.initial = e)
    (hvalid : e.valid = true) (hw : e.writable = false) (hp : e.priv = true)
    (hrw : rw = 2 ∨ rw = 3)
    (hlt : mcGet s.mapcounts e.pfn < U32MOD)
    (hfree : ∃ i, i < s.mapcounts.length ∧ mcGet s.mapcounts i = 0) :
    ∃ s' e', handle_page_fault s vpn rw = some (s', true) ∧
      getPte (ptbrTable s') (vpn / NR_PTES_PER_PAGE) (vpn % NR_PTES_PER_PAGE) =
        some e' ∧
      e'.priv = e.priv ∧ e'.valid = e.valid ∧ e'.writable = true := by
  have hcond : (!e.writable && (rw == 2 || rw == 3) && e.priv) = true := by
    rw [hw, hp]
    rcases hrw with h | h <;> subst h <;> decide
  have hred := handle_page_fault_cow s vpn rw d hd e he hcond
  have hptlen : vpn % NR_PTES_PER_PAGE < d.length := by
    rw [wfTable_dir _ (wfState_ptbr s hwf) _ d hd]
    exact Nat.mod_lt _ (by decide)
  by_cases hmc : 1 < mcGet s.mapcounts e.pfn
  · have hpfnlt : e.pfn < s.mapcounts.length := by
      by_contra hc
      push_neg at hc
      rw [mcGet, getD_oob _ _ _ hc] at hmc
      omega
    have hdec : u32dec (mcGet s.mapcounts e.pfn) = mcGet s.mapcounts e.pfn - 1 := by
      simp only [u32dec, U32MOD] at hlt ⊢
      omega
    have hnz : mcGet s.mapcounts e.pfn ≠ 0 := by omega
    have hvnz : u32dec (mcGet s.mapcounts e.pfn) ≠ 0 := by rw [hdec]; omega
    obtain ⟨i0, hi0, h00⟩ := hfree
    obtain ⟨f, hf⟩ := findFreeFrame_isSome s.mapcounts i0 hi0 h00
    have hf' :
        findFreeFrame (s.mapcounts.set e.pfn (u32dec (mcGet s.mapcounts e.pfn))) =
          some f := by
      rw [findFreeFrame_set_nonzero _ _ _ hvnz hnz, hf]
    have hmany := hpfResolve_many s vpn e f hmc hf'
    have hd1 := getDir_modifyPte_self (ptbrTable s) (vpn / NR_PTES_PER_PAGE)
      (vpn % NR_PTES_PER_PAGE) (fun x => { x with writable := true }) d hd
    have hcur2 : ∀ j,
        ({ s with mapcounts :=
            ((s.mapcounts.set e.pfn (u32dec (mcGet s.mapcounts e.pfn))).set f
              (u32inc (mcGet (s.mapcounts.set e.pfn (u32dec (mcGet s.mapcounts e.pfn))) f))) } :
          MMU).current = some j →
        j < ({ s with mapcounts :=
            ((s.mapcounts.set e.pfn (u32dec (mcGet s.mapcounts e.pfn))).set f
              (u32inc (mcGet (s.mapcounts.set e.pfn (u32dec (mcGet s.mapcounts e.pfn))) f))) } :
          MMU).processes.length :=
      fun j hj => wfState_cur s hwf j hj
    refine ⟨_, { e with writable := true, pfn := f },
      by rw [hred, hmany], ?_, rfl, rfl, rfl⟩
    rw [ptbrTable_setPtbrTable _ _ hcur2]
    rw [getPte_modifyPte_self _ _ _ _ _ hd1 (by simpa using hptlen)]
    rw [getD_set_self _ _ _ _ hptlen, he]
  · have hone := hpfResolve_one s vpn e hmc
    refine ⟨_, { e with writable := true }, by rw [hred, hone], ?_, rfl, rfl, rfl⟩
    rw [ptbrTable_setPtbrTable s _ (wfState_cur s hwf)]
    rw [getPte_modifyPte_self _ _ _ _ d hd hptlen, he]

/-- Witness: hpf_preserves_priv applied to the concrete COW state with
reference count 1 (the free-frame hypothesis holds with frame 1). -/
theorem hpf_preserves_priv_witness :
    ∃ s' e', handle_page_fault sCow1 0 3 = some (s', true) ∧
      getPte (ptbrTable s') (0 / NR_PTES_PER_PAGE) (0 % NR_PTES_PER_PAGE) =
        some e' ∧
      e'.priv = cowPte.priv ∧ e'.valid = cowPte.valid ∧ e'.writable = true :=
  hpf_preserves_priv sCow1 0 3 (by decide) cowDir (by decide) cowPte (by decide)
    (by decide) (by decide) (by decide) (Or.inr rfl) (by decide)
    ⟨1, by decide, by decide⟩

/-- C9: freeing a vpn with a valid mapping in the current process clears
valid, writable and private on that entry, decrements the reference count of
the frame it held by exactly one, leaves every other frame's count
unchanged, and affects no other process's page table and no other entry of
the current table (so a frame shared with a child keeps the child's entry
valid and untouched). -/
theorem free_page_spec (s : MMU) (vpn : Nat)
    (hwf : wfState s = true)
    (d : PteDir) (hd : getDir (ptbrTable s) (vpn / NR_PTES_PER_PAGE) = some d)
    (e : Pte) (he : d.getD (vpn % NR_PTES_PER_PAGE) Pte.initial = e)
    (hvalid : e.valid = true)
    (hmc : 0 < mcGet s.mapcounts e.pfn)
    (hlt : mcGet s.mapcounts e.pfn < U32MOD) :
    ∃ s', free_page s vpn = some s' ∧
      getPte (ptbrTable s') (vpn / NR_PTES_PER_PAGE) (vpn % NR_PTES_PER_PAGE) =
        some { e with valid := false, writable := false, priv := false } ∧
      mcGet s'.mapcounts e.pfn = mcGet s.mapcounts e.pfn - 1 ∧
      (∀ g, g ≠ e.pfn → mcGet s'.mapcounts g = mcGet s.mapcounts g) ∧
      s'.current = s.current ∧
      (∀ k, k ≠ curPos s → tableAt s' k = tableAt s k) ∧
      (∀ pd' pt', pd' ≠ vpn / NR_PTES_PER_PAGE ∨ pt' ≠ vpn % NR_PTES_PER_PAGE →
        getPte (ptbrTable s') pd' pt' = getPte (ptbrTable s) pd' pt') := by
  have heq : free_page s vpn =
      some (setPtbrTable
        { s with mapcounts :=
            (s.mapcounts.set (d.getD (vpn % NR_PTES_PER_PAGE) Pte.initial).pfn
              (u32dec (mcGet s.mapcounts
                (d.getD (vpn % NR_PTES_PER_PAGE) Pte.initial).pfn))) }
        (modifyPte (ptbrTable s) (vpn / NR_PTES_PER_PAGE) (vpn % NR_PTES_PER_PAGE)
          fun x => { x with valid := false, writable := false, priv := false })) := by
    simp only [free_page]
    rw [hd]
  rw [he] at heq
  have hpfnlt : e.pfn < s.mapcounts.length := by
    by_contra hc
    push_neg at hc
    rw [mcGet, getD_oob _ _ _ hc] at hmc
    omega
  have hdec : u32dec (mcGet s.mapcounts e.pfn) = mcGet s.mapcounts e.pfn - 1 := by
    simp only [u32dec, U32MOD] at hlt ⊢
    omega
  have hptlen : vpn % NR_PTES_PER_PAGE < d.length := by
    rw [wfTable_dir _ (wfState_ptbr s hwf) _ d hd]
    exact Nat.mod_lt _ (by decide)
  have hcur2 : ∀ j,
      ({ s with mapcounts :=
          (s.mapcounts.set e.pfn (u32dec (mcGet s.mapcounts e.pfn))) } :
        MMU).current = some j →
      j < ({ s with mapcounts :=
          (s.mapcounts.set e.pfn (u32dec (mcGet s.mapcounts e.pfn))) } :
        MMU).processes.length :=
    fun j hj => wfState_cur s hwf j hj
  refine ⟨_, heq, ?_, ?_, ?_, ?_, ?_, ?_⟩
  · rw [ptbrTable_setPtbrTable _ _ hcur2]
    rw [getPte_modifyPte_self _ _ _ _ d hd hptlen, he]
  · rw [setPtbrTable_mapcounts]
    show mcGet (s.mapcounts.set e.pfn (u32dec (mcGet s.mapcounts e.pfn))) e.pfn =
      mcGet s.mapcounts e.pfn - 1
    rw [mcGet, getD_set_self _ _ _ _ hpfnlt]
    exact hdec
  · intro g hg
    rw [setPtbrTable_mapcounts]
    show mcGet (s.mapcounts.set e.pfn (u32dec (mcGet s.mapcounts e.pfn))) g =
      mcGet s.mapcounts g
    rw [mcGet, getD_set_ne _ _ _ _ _ (fun hh => hg hh.symm)]
    rfl
  · rw [setPtbrTable_current]
  · intro k hk
    rw [tableAt_setPtbrTable _ _ k (by rw [curPos_mapcounts]; exact hk)]
    rfl
  · intro pd' pt' hne
    rw [ptbrTable_setPtbrTable _ _ hcur2]
    exact getPte_modifyPte_ne (ptbrTable s) _ _ _ pd' pt' hne

/-- The writable mapping used in the free_page witness state. -/
def rwPte : Pte := { valid := true, writable := true, priv := false, pfn := 0 }

/-- A state with one writable mapping of frame 0 and mapcounts[0] = 1. -/
def sRw : MMU :=
  { processes := []
    initProc := { pid := 0, pagetable := emptyTable.set 0 (some (emptyDir.set 0 rwPte)) }
    current := none
    mapcounts := (List.replicate NR_PAGEFRAMES 0).set 0 1 }

/-- Witness: free_page_spec applied to the concrete mapped state. -/
theorem free_page_spec_witness :
    ∃ s', free_page sRw 0 = some s' ∧
      getPte (ptbrTable s') (0 / NR_PTES_PER_PAGE) (0 % NR_PTES_PER_PAGE) =
        some { rwPte with valid := false, writable := false, priv := false } ∧
      mcGet s'.mapcounts rwPte.pfn = mcGet sRw.mapcounts rwPte.pfn - 1 ∧
      (∀ g, g ≠ rwPte.pfn → mcGet s'.mapcounts g = mcGet sRw.mapcounts g) ∧
      s'.current = sRw.current ∧
      (∀ k, k ≠ curPos sRw → tableAt s' k = tableAt sRw k) ∧
      (∀ pd' pt', pd' ≠ 0 / NR_PTES_PER_PAGE ∨ pt' ≠ 0 % NR_PTES_PER_PAGE →
        getPte (ptbrTable s') pd' pt' = getPte (ptbrTable sRw) pd' pt') :=
  free_page_spec sRw 0 (by decide) (emptyDir.set 0 rwPte) (by decide) rwPte
    (by decide) (by decide) (by decide) (by decide)

/-- Witness: alloc_page_spec applied to the fresh driver state with vpn 0
and a read-write permission. -/
theorem alloc_page_spec_witness :
    ∃ s' f, alloc_page initState 0 3 = some (s', f) ∧
      mcGet initState.mapcounts f = 0 ∧
      (∀ j, j < f → mcGet initState.mapcounts j ≠ 0) ∧
      (getDir (ptbrTable s') (0 / NR_PTES_PER_PAGE)).isSome = true ∧
      getPte (ptbrTable s') (0 / NR_PTES_PER_PAGE) (0 % NR_PTES_PER_PAGE) =
        some { valid := true, writable := Nat.testBit 3 1,
               priv := (curPte initState 0).priv, pfn := f } ∧
      mcGet s'.mapcounts f = mcGet initState.mapcounts f + 1 :=
  alloc_page_spec initState 0 3 (by decide) (by decide) (by decide)
    ⟨0, by decide, by decide⟩

/-! Concrete operation sequences (all legal per the spec) that exhibit the
divergences of switch_process, alloc_page and handle_page_fault from the
spec.  Every call in them succeeds, so the Option plumbing only threads
defined results. -/

/-- Fresh system, alloc_page(0, 3), then switch_process(99): a fork. -/
def forkScn : Option MMU :=
  (alloc_page initState 0 3).map fun p => switch_process p.fst 99

/-- C2: evaluated at the fork scenario, the claim fails on the parent side:
the child's entry for vpn 0 is private and read-only as claimed, but the
fork loop never writes the parent's table, so the parent entry stays
writable = true and private = false (the claim requires private = true and
writable = false on both sides). -/
theorem switch_fork_parent_unprotected :
    forkScn.map (fun s =>
      (getPte s.initProc.pagetable 0 0,
       getPte ((s.processes.getD 0 defaultProcess).pagetable) 0 0,
       mcGet s.mapcounts 0)) =
    some (some { valid := true, writable := true, priv := false, pfn := 0 },
          some { valid := true, writable := false, priv := true, pfn := 0 },
          2) := by decide

/-- alloc_page(0,3); switch_process(1) forks process 1; as process 1,
alloc_page(1,3) maps vpn 1 writable at frame 1. -/
def preSwitchScn : Option MMU :=
  ((alloc_page initState 0 3).map fun p => switch_process p.fst 1).bind fun s =>
    (alloc_page s 1 3).map Prod.fst

/-- The same, followed by switch_process(1): pid 1 is already in the queue,
so this takes the found-process branch (a self switch). -/
def postSwitchScn : Option MMU := preSwitchScn.map fun s => switch_process s 1

/-- C3: a switch to an existing pid does set it current (current becomes
index 0), but the found-process branch also rewrites the target's entries:
process 1's entry for vpn 1 goes from writable, non-private to read-only,
private — the claim says no entries of any process are modified. -/
theorem switch_found_modifies_entries :
    (preSwitchScn.map fun s =>
      getPte ((s.processes.getD 0 defaultProcess).pagetable) 0 1) =
      some (some { valid := true, writable := true, priv := false, pfn := 1 }) ∧
    (postSwitchScn.map fun s =>
      (getPte ((s.processes.getD 0 defaultProcess).pagetable) 0 1, s.current)) =
      some (some { valid := true, writable := false, priv := true, pfn := 1 },
            some 0) :=
  ⟨by decide, by decide⟩

/-- preSwitchScn, then switch_process(2) forks process 2, alloc_page(2,3)
maps vpn 2 at frame 2 for process 2, and switch_process(1) takes the
found-process branch back to process 1. -/
def invScn : Option MMU :=
  ((preSwitchScn.map fun s => switch_process s 2).bind fun s =>
    (alloc_page s 2 3).map Prod.fst).map fun s => switch_process s 1

/-- C1: after the legal sequence of invScn, the reference-count invariant is
broken: the found-process branch of switch_process copied the valid vpn-2
mapping of frame 2 into process 1's table without incrementing
mapcounts[2], so two valid PTEs reference frame 2 while mapcounts[2] = 1. -/
theorem mapcount_invariant_violated :
    invScn.map (fun s => (mcGet s.mapcounts 2, countAll s 2)) = some (1, 2) := by
  decide

/-- C5: when every frame's reference count is nonzero, alloc_page never
produces the -1 sentinel: the free-frame scan has no bound, so it runs past
the end of mapcounts (modelled as none) and the return -1 of line 91 is
unreachable. -/
theorem alloc_page_no_sentinel (s : MMU) (vpn rw : Nat)
    (h : ∀ c ∈ s.mapcounts, c ≠ 0) : alloc_page s vpn rw = none := by
  simp only [alloc_page]
  rw [findFreeFrame_none s.mapcounts h]

/-- A state in which every frame is referenced once (reachable by 128
successful allocations). -/
def sFull : MMU := { initState with mapcounts := List.replicate NR_PAGEFRAMES 1 }

/-- Witness: alloc_page_no_sentinel at the fully allocated state. -/
theorem alloc_page_no_sentinel_witness : alloc_page sFull 0 3 = none :=
  alloc_page_no_sentinel sFull 0 3 (by decide)

/-- A directory whose entry 0 is invalid but still marked private. -/
def dirInvPriv : PteDir :=
  emptyDir.set 0 { valid := false, writable := false, priv := true, pfn := 0 }

/-- A state carrying an invalid-but-private entry at vpn 0. -/
def sInvPriv : MMU :=
  { initState with
      initProc := { pid := 0, pagetable := emptyTable.set 0 (some dirInvPriv) } }

/-- C6: two divergences from the claim.  With the outer directory absent
(the fresh state) a write fault at vpn 0 makes the code dereference NULL
(modelled none) rather than return false; and the condition on line 140
never tests valid, so a write fault on an invalid entry marked private is
resolved with true rather than rejected with false. -/
theorem hpf_crashes_and_ignores_valid :
    handle_page_fault initState 0 3 = none ∧
    (handle_page_fault sInvPriv 0 3).map Prod.snd = some true :=
  ⟨by decide, by decide⟩

end PA2
